import Mathlib

/-!
Verification development for a small WebDAV client library (TypeScript,
`src/webdav-client.ts`).  The functional core of the client — base64 and
percent encoding helpers, the regular-expression based multi-status XML
scanner, path canonicalization over the platform URL resolver, header
assembly, and the per-operation response handling — is embedded shallowly
below.  Machine numbers are modelled with `Nat`/`Int`; fallible steps with
`Option`/`Except`.

Platform collaborators (the WHATWG `URL` class, `decodeURIComponent`,
`TextEncoder`) are modelled explicitly; each model's doc comment states the
subset of platform behaviour it captures.  Theorems that depend on the value
of a resolved URL path carry hypotheses confining their inputs to that
subset (no dot segments, no characters requiring percent-encoding, no
query/fragment, no authority-relative references).
-/

set_option maxRecDepth 4000

deriving instance DecidableEq for Except

namespace WebDAV

/-- Whitespace as treated by JavaScript `String.prototype.trim` and the
`\s` regex class (ASCII subset; the client only ever meets ASCII here). -/
def isWs (c : Char) : Bool :=
  c == ' ' || c == '\t' || c == '\n' || c == '\r' || c == '\x0b' || c == '\x0c'

/-- ASCII lower-casing of one character, as used for case-insensitive regex
matching and `String.prototype.toLowerCase` on ASCII input. -/
def lowerChar (c : Char) : Char :=
  if 'A' ≤ c ∧ c ≤ 'Z' then Char.ofNat (c.toNat + 32) else c

/-- JavaScript `value.toLowerCase()` (ASCII subset). -/
def jsToLower (s : String) : String := ⟨s.data.map lowerChar⟩

/-- JavaScript `value.trim()` applied to a character list. -/
def trimChars (l : List Char) : List Char :=
  ((l.dropWhile isWs).reverse.dropWhile isWs).reverse

/-- JavaScript `value.trim()`. -/
def jsTrim (s : String) : String := ⟨trimChars s.data⟩

/-- Drops a literal pattern from the front of a list, returning the rest. -/
def stripLead : List Char → List Char → Option (List Char)
  | [], l => some l
  | _ :: _, [] => none
  | p :: ps, c :: cs => if c == p then stripLead ps cs else none

/-- Case-insensitive test that `l` begins with `tag`. -/
def startsWithCI : List Char → List Char → Bool
  | [], _ => true
  | _ :: _, [] => false
  | t :: ts, c :: cs => lowerChar c == lowerChar t && startsWithCI ts cs

/-- Case-sensitive substring test, as in JavaScript `String.prototype.includes`. -/
def containsSub (pat : List Char) : List Char → Bool
  | [] => (stripLead pat []).isSome
  | l@(_ :: cs) => (stripLead pat l).isSome || containsSub pat cs

/-- JavaScript `s.includes(pat)`. -/
def jsIncludes (s pat : String) : Bool := containsSub pat.data s.data

/-- Case-insensitive substring test (for `/…/i` regex literals). -/
def containsCI (s pat : String) : Bool :=
  containsSub (pat.data.map lowerChar) (s.data.map lowerChar)

/-- Splits a list at the first occurrence of `ch`, returning the parts
before and after it, or `none` when `ch` does not occur. -/
def splitAtChar (ch : Char) : List Char → Option (List Char × List Char)
  | [] => none
  | c :: cs =>
    if c == ch then some ([], cs)
    else (splitAtChar ch cs).map fun p => (c :: p.1, p.2)

/-- Splits a character list on `/`, keeping empty pieces — exactly
JavaScript `s.split("/")`. -/
def splitSlash : List Char → List (List Char)
  | [] => [[]]
  | c :: cs =>
    if c == '/' then [] :: splitSlash cs
    else
      match splitSlash cs with
      | [] => [[c]]
      | s :: ss => (c :: s) :: ss

/-!
The client extracts XML fragments with regular expressions of the shape
`<[^:>]*:?TAG[^>]*>([\s\S]*?)</[^:>]*:?TAG>` (flags `i` or `gi`).  The
functions below implement exactly these patterns.  An opening match starting
at a given `<` always ends at the first following `>` (none of the character
classes may cross a `>`), so a match attempt at a position reduces to a
check on the characters strictly between `<` and that `>`.
-/

/-- Tests `[^:>]*:?` against the part of an opening tag before the tag name:
no colon at all, or a single colon in final position. -/
def preOk (pre : List Char) : Bool :=
  pre.all (fun c => !(c == ':') && !(c == '>')) ||
    (match pre.getLast? with
     | some ':' => pre.dropLast.all (fun c => !(c == ':') && !(c == '>'))
     | _ => false)

/-- Scans the text between `<` and `>` for `[^:>]*:?TAG` with the regex's
backtracking semantics: at each position, either the (case-insensitive)
tag name starts here with a legal prefix consumed so far, or we consume one
more character.  The boolean argument is true while the consumed prefix is
still colon-free (state `[^:>]*`); after consuming a colon only an
immediate tag match is allowed. -/
def openScan (tag : List Char) : List Char → Bool
  | [] => false
  | l@(c :: cs) =>
    startsWithCI tag l ||
      (if c == ':' then startsWithCI tag cs else openScan tag cs)

/-- Whether an opening-tag match of `<[^:>]*:?TAG[^>]*>` begins exactly at
the head of `l`; returns the remainder after the closing `>`. -/
def openAt (tag : List Char) : List Char → Option (List Char)
  | '<' :: rest =>
    match splitAtChar '>' rest with
    | some (content, after) => if openScan tag content then some after else none
    | none => none
  | _ => none

/-- Whether a closing-tag match of `</[^:>]*:?TAG>` begins exactly at the
head of `l` (the `>` must immediately follow the tag name); returns the
remainder after the `>`. -/
def closeAt (tag : List Char) : List Char → Option (List Char)
  | '<' :: '/' :: rest =>
    match splitAtChar '>' rest with
    | some (content, after) =>
      if tag.length ≤ content.length
          && preOk (content.take (content.length - tag.length))
          && startsWithCI tag (content.drop (content.length - tag.length)) then
        some after
      else none
    | none => none
  | _ => none

/-- Lazy search for the closing tag: the capture group `([\s\S]*?)` extends
to the nearest position where the closing pattern matches. -/
def findClose (tag : List Char) (acc : List Char) : List Char → Option (List Char × List Char)
  | [] => none
  | l@(c :: cs) =>
    match closeAt tag l with
    | some after => some (acc.reverse, after)
    | none => findClose tag (c :: acc) cs

/-- A full match (open tag, lazy capture, close tag) starting exactly here. -/
def fullAt (tag : List Char) (l : List Char) : Option (List Char × List Char) :=
  match openAt tag l with
  | some afterOpen => findClose tag [] afterOpen
  | none => none

/-- First full match anywhere in `l` (the regex engine advances the start
position until the whole pattern matches). -/
def findFull (tag : List Char) : List Char → Option (List Char × List Char)
  | [] => none
  | l@(_ :: cs) =>
    match fullAt tag l with
    | some r => some r
    | none => findFull tag cs

/-- All matches, resuming after the end of each full match (`g` flag); the
fuel argument bounds the number of matches, each of which consumes at least
one character. -/
def getAllAux (tag : List Char) : Nat → List Char → List (List Char)
  | 0, _ => []
  | fuel + 1, l =>
    match findFull tag l with
    | none => []
    | some (cap, after) => trimChars cap :: getAllAux tag fuel after

/-- `getAllTagContents(xml, tag)` from the source: every trimmed capture of
`<…tag…>(…)</…tag>`, in document order. -/
def getAllTagContents (xml tag : String) : List String :=
  (getAllAux tag.data (xml.data.length + 1) xml.data).map fun l => ⟨l⟩

/-- `getTagContent(xml, tag)` from the source: the first trimmed capture,
or the empty string when the pattern does not match. -/
def getTagContent (xml tag : String) : String :=
  match findFull tag.data xml.data with
  | some (cap, _) => ⟨trimChars cap⟩
  | none => ""

/-- Whether an opening-tag-shaped match occurs anywhere in `l`.  In the
source `hasTag` uses `<…tag…(?:/?>|>…</…tag>)`; its first alternative
`/?>` succeeds whenever the opening shape `<[^:>]*:?TAG[^>]*>` does, so the
whole pattern matches exactly when the opening shape occurs. -/
def hasOpen (tag : List Char) : List Char → Bool
  | [] => false
  | l@(_ :: cs) => (openAt tag l).isSome || hasOpen tag cs

/-- `hasTag(xml, tag)` from the source (the `!xml` guard plus the regex). -/
def hasTag (xml tag : String) : Bool :=
  !(xml == "") && hasOpen tag.data xml.data

/-!  Number and text helpers from the source file.  -/

/-- Value of an ASCII decimal digit list. -/
def natOfDigits (l : List Char) : Nat :=
  l.foldl (fun a c => a * 10 + (c.toNat - 48)) 0

/-- The longest decimal-digit run at the head, `none` when there is none. -/
def jsParseIntDigits (l : List Char) : Option Nat :=
  if (l.takeWhile Char.isDigit).isEmpty then none
  else some (natOfDigits (l.takeWhile Char.isDigit))

/-- Sign handling of `parseInt` after whitespace skipping. -/
def jsParseIntSigned : List Char → Option Int
  | '-' :: rest => (jsParseIntDigits rest).map fun n => -(n : Int)
  | '+' :: rest => (jsParseIntDigits rest).map fun n => (n : Int)
  | l => (jsParseIntDigits l).map fun n => (n : Int)

/-- JavaScript `Number.parseInt(value, 10)`: skip leading whitespace, read
an optional sign and then the longest run of decimal digits; `none` models
`NaN`.  The model uses exact integers: rounding of results above 2^53 and
overflow to `Infinity` of astronomically long digit strings are outside the
modelled domain. -/
def jsParseInt (s : String) : Option Int :=
  jsParseIntSigned (s.data.dropWhile isWs)

/-- `safeParseInteger` from the source: `Number.parseInt(value, 10)` with
non-finite results (`NaN`) replaced by 0. -/
def safeParseInteger (s : String) : Int := (jsParseInt s).getD 0

/-- Hexadecimal digit value. -/
def hexVal (c : Char) : Option Nat :=
  if '0' ≤ c ∧ c ≤ '9' then some (c.toNat - 48)
  else if 'a' ≤ c ∧ c ≤ 'f' then some (c.toNat - 87)
  else if 'A' ≤ c ∧ c ≤ 'F' then some (c.toNat - 55)
  else none

/-- One token of a percent-encoded string: a literal character or the byte
of one `%XX` escape. -/
inductive PctTok where
  | lit (c : Char)
  | byte (b : Nat)
deriving DecidableEq, Repr

/-- Lexes `%XX` escapes; `none` when a `%` is not followed by two hex
digits (which makes `decodeURIComponent` throw). -/
def pctLex : List Char → Option (List PctTok)
  | [] => some []
  | '%' :: h1 :: h2 :: rest =>
    match hexVal h1, hexVal h2 with
    | some a, some b => (pctLex rest).map (PctTok.byte (a * 16 + b) :: ·)
    | _, _ => none
  | '%' :: _ :: _ => none
  | ['%'] => none
  | c :: rest => (pctLex rest).map (PctTok.lit c :: ·)

/-- Tests for a UTF-8 continuation byte. -/
def isCont (b : Nat) : Bool := 128 ≤ b && b ≤ 191

/-- Groups the escape bytes of a token stream into UTF-8 code points;
literal characters pass through.  Invalid, truncated, overlong and
surrogate sequences fail (`decodeURIComponent` throws on them). -/
def pctGroup : List PctTok → Option (List Char)
  | [] => some []
  | .lit c :: rest => (pctGroup rest).map (c :: ·)
  | .byte b0 :: rest =>
    if b0 ≤ 127 then (pctGroup rest).map (Char.ofNat b0 :: ·)
    else if 194 ≤ b0 ∧ b0 ≤ 223 then
      match rest with
      | .byte b1 :: rest2 =>
        if isCont b1 then
          (pctGroup rest2).map (Char.ofNat ((b0 - 192) * 64 + (b1 - 128)) :: ·)
        else none
      | _ => none
    else if 224 ≤ b0 ∧ b0 ≤ 239 then
      match rest with
      | .byte b1 :: .byte b2 :: rest2 =>
        if isCont b1 && isCont b2 then
          let cp := (b0 - 224) * 4096 + (b1 - 128) * 64 + (b2 - 128)
          if 2048 ≤ cp ∧ ¬ (55296 ≤ cp ∧ cp ≤ 57343) then
            (pctGroup rest2).map (Char.ofNat cp :: ·)
          else none
        else none
      | _ => none
    else if 240 ≤ b0 ∧ b0 ≤ 244 then
      match rest with
      | .byte b1 :: .byte b2 :: .byte b3 :: rest2 =>
        if isCont b1 && isCont b2 && isCont b3 then
          let cp := (b0 - 240) * 262144 + (b1 - 128) * 4096 + (b2 - 128) * 64 + (b3 - 128)
          if 65536 ≤ cp ∧ cp ≤ 1114111 then
            (pctGroup rest2).map (Char.ofNat cp :: ·)
          else none
        else none
      | _ => none
    else none

/-- JavaScript `decodeURIComponent` (throw modelled as `none`). -/
def jsDecodeURIComponent (l : List Char) : Option (List Char) :=
  (pctLex l).bind pctGroup

/-- `decodeSegment` from the source: `decodeURIComponent`, falling back to
the raw segment when decoding throws. -/
def decodeSegment (s : String) : String :=
  match jsDecodeURIComponent s.data with
  | some l => ⟨l⟩
  | none => s

/-- UTF-8 encoding of one character (`TextEncoder` behaviour; Lean `Char`
carries no lone surrogates). -/
def utf8Encode (c : Char) : List Nat :=
  let n := c.toNat
  if n ≤ 127 then [n]
  else if n ≤ 2047 then [192 + n / 64, 128 + n % 64]
  else if n ≤ 65535 then [224 + n / 4096, 128 + n / 64 % 64, 128 + n % 64]
  else [240 + n / 262144, 128 + n / 4096 % 64, 128 + n / 64 % 64, 128 + n % 64]

/-- The base64 alphabet from the source. -/
def base64Alphabet : List Char :=
  "ABCDEFGHIJKLMNOPQRSTUVWXYZabcdefghijklmnopqrstuvwxyz0123456789+/".data

/-- One output group of the source's base64 loop: three input bytes (missing
ones replaced by 0), the count of real bytes remaining at this chunk, four
output characters with `=` padding. -/
def b64Group (b0 b1 b2 remaining : Nat) : List Char :=
  let combined := b0 * 65536 + b1 * 256 + b2
  let padding := if 3 ≤ remaining then 0 else 3 - remaining
  (List.range 4).map fun offset =>
    if 4 - padding ≤ offset then '='
    else base64Alphabet.getD (combined / 2 ^ (18 - offset * 6) % 64) 'A'

/-- The source's `toBase64` fallback loop over a byte list (index steps by
three; missing bytes default to 0; `remaining` is the number of bytes from
the current index on). -/
def toBase64Bytes : List Nat → List Char
  | [] => []
  | [b0] => b64Group b0 0 0 1
  | [b0, b1] => b64Group b0 b1 0 2
  | b0 :: b1 :: b2 :: rest => b64Group b0 b1 b2 (3 + rest.length) ++ toBase64Bytes rest

/-- `toBase64` from the source, on the `TextEncoder` bytes of the input.
(The `btoa` branch coincides with this one on ASCII input, the only kind
the client manufactures here.) -/
def toBase64 (s : String) : String :=
  ⟨toBase64Bytes (s.data.flatMap utf8Encode)⟩

/-!
URL model.  The source resolves paths with the platform WHATWG `URL`
class.  `JSURL` keeps the pieces the client observes: scheme, host
(including any port) and pathname; the constructor clears search and
fragment on the base, and the client never produces URLs with a query, so
these are not carried.  Path resolution below is the WHATWG algorithm
restricted to the domain described at the top of the file: references
without `.`/`..` segments, without backslashes, without characters that the
parser would percent-encode, and not of authority-relative (`//…`) form; on
that domain the resolved pathname is the merged path verbatim.  Resolution
failure (the `URL` constructor throwing) is modelled as `none`.
-/

structure JSURL where
  scheme : String
  host : String
  pathname : String
deriving DecidableEq, Repr

/-- `url.toString()` for the modelled URLs (no query or fragment). -/
def urlToString (u : JSURL) : String := u.scheme ++ "://" ++ u.host ++ u.pathname

/-- Cuts a raw reference at the first `?` or `#` (query and fragment do not
contribute to the pathname). -/
def stripQF (l : List Char) : List Char :=
  l.takeWhile fun c => !(c == '?') && !(c == '#')

/-- The characters of `l` up to and including the last `/` (the directory
part used when resolving a relative reference). -/
def upToLastSlash (l : List Char) : List Char :=
  (l.reverse.dropWhile fun c => !(c == '/')).reverse

/-- Resolves a non-absolute reference against a base URL: root-relative
references replace the whole path, others are appended to the base's
directory.  Authority-relative (`//…`) references are outside the modelled
domain and map to `none`. -/
def jsResolve (base : JSURL) (rel : String) : Option JSURL :=
  if ['/', '/'].isPrefixOf rel.data then none
  else if rel.data.head? = some '/' then
    some { base with pathname := ⟨stripQF rel.data⟩ }
  else
    some { base with pathname := ⟨upToLastSlash base.pathname.data ++ stripQF rel.data⟩ }

/-- Whether `c` may appear in a scheme after the first letter
(`[a-zA-Z\d+.-]`). -/
def isSchemeChar (c : Char) : Bool :=
  c.isAlpha || c.isDigit || c == '+' || c == '.' || c == '-'

/-- The source's absolute-URI test `/^[a-zA-Z][a-zA-Z\d+.-]*:/.test(path)`. -/
def schemeLike (s : String) : Bool :=
  match s.data with
  | [] => false
  | c :: rest => c.isAlpha && (rest.dropWhile isSchemeChar).head? = some ':'

/-- Splits `host/path` after the `//` of an absolute URL: the host runs to
the first `/`, `?` or `#` and must be non-empty; the pathname is the rest
when it starts with `/`, else the root path. -/
def absHostPath (scheme : String) (tail : List Char) : Option JSURL :=
  let host := tail.takeWhile fun ch => !(ch == '/') && !(ch == '?') && !(ch == '#')
  if host.isEmpty then none
  else
    let after := tail.drop host.length
    some { scheme := scheme, host := ⟨host⟩
           pathname := ⟨if after.head? = some '/' then stripQF after else ['/']⟩ }

/-- Parses an absolute `scheme://host/path` URL (the only absolute form the
modelled domain contains; other absolute forms map to `none`). -/
def parseAbsURL (s : String) : Option JSURL :=
  match s.data with
  | [] => none
  | c :: rest =>
    if c.isAlpha then
      match rest.dropWhile isSchemeChar with
      | ':' :: '/' :: '/' :: tail => absHostPath ⟨c :: rest.takeWhile isSchemeChar⟩ tail
      | _ => none
    else none

/-!  The client.  -/

structure Client where
  base : JSURL
  basePath : String
  authHeader : Option String
  customHeaders : List (String × String)
deriving DecidableEq, Repr

/-- Strips every trailing `/` (the `replace(/\/+$/, "")` idiom). -/
def stripTrailList (l : List Char) : List Char :=
  (l.reverse.dropWhile fun c => c == '/').reverse

/-- String form of `replace(/\/+$/, "")`. -/
def stripTrailingSlashes (s : String) : String := ⟨stripTrailList s.data⟩

/-- The constructor of `WebDAVClient`, applied to an already-parsed base
URL (search and fragment cleared): ensure the base pathname ends in `/`,
precompute `basePath` and the basic-auth header, copy the custom headers. -/
def mkClient (base : JSURL) (username password : Option String)
    (headers : List (String × String)) : Client :=
  let pn := if base.pathname.data.getLast? = some '/' then base.pathname
            else base.pathname ++ "/"
  let stripped := stripTrailingSlashes pn
  { base := { base with pathname := pn }
    basePath := if stripped = "" then "/" else stripped
    authHeader :=
      match username, password with
      | some u, some p => some ("Basic " ++ toBase64 (u ++ ":" ++ p))
      | _, _ => none
    customHeaders := headers }

/-- `resolveURL` from the source: absolute URI, root-relative (resolved
against the origin), or relative to the base. -/
def resolveURL (c : Client) (path : String) : Option JSURL :=
  if schemeLike path then parseAbsURL path
  else jsResolve c.base path

/-- The `path.startsWith("/") ? path.slice(1) : path` step of
`resolveRequestURL`. -/
def dropLeadSlash (path : String) : String :=
  if path.data.head? = some '/' then ⟨path.data.drop 1⟩ else path

/-- `resolveRequestURL` from the source: absolute URI kept, otherwise one
leading `/` is removed and the result resolved against the base itself. -/
def resolveRequestURL (c : Client) (path : String) : Option JSURL :=
  if schemeLike path then parseAbsURL path
  else jsResolve c.base (dropLeadSlash path)

/-- Whether `pn` equals the base path or lies strictly under it (the
condition guarding the base-path strip in `normalizePath`). -/
def underBaseP (c : Client) (pn : String) : Prop :=
  pn = c.basePath ∨ (c.basePath ++ "/").data.isPrefixOf pn.data = true

instance (c : Client) (pn : String) : Decidable (underBaseP c pn) := by
  unfold underBaseP; infer_instance

/-- The base-path strip inside `normalizePath`. -/
def stripBasePath (c : Client) (pn : String) : String :=
  if c.basePath ≠ "/" ∧ underBaseP c pn then ⟨pn.data.drop c.basePath.data.length⟩
  else pn

/-- The tail of `normalizePath`: strip trailing slashes, collapse the empty
result to `/`, ensure a leading slash. -/
def postProcess (pn : String) : String :=
  if stripTrailingSlashes pn = "" then "/"
  else if (stripTrailingSlashes pn).data.head? = some '/' then stripTrailingSlashes pn
  else "/" ++ stripTrailingSlashes pn

/-- The leading-slash guard of the `catch` branch of `normalizePath`. -/
def ensureLead (path : String) : String :=
  if path.data.head? = some '/' then path else "/" ++ path

/-- The `catch` branch of `normalizePath`: ensure a leading slash, strip
trailing slashes, collapse the empty result to `/`. -/
def fallbackNormalize (path : String) : String :=
  if stripTrailingSlashes (ensureLead path) = "" then "/"
  else stripTrailingSlashes (ensureLead path)

/-- `normalizePath` from the source. -/
def normalizePath (c : Client) (path : String) : String :=
  match resolveURL c path with
  | some url => postProcess (stripBasePath c url.pathname)
  | none => fallbackNormalize path

/-!  Multi-status parsing.  -/

/-- The `WebDAVStat` record of the source (`type` is `"directory"` or
`"file"`; `etag`/`mime` are set only when non-empty). -/
structure WebDAVStat where
  filename : String
  basename : String
  lastmod : String
  size : Int
  type : String
  etag : Option String
  mime : Option String
deriving DecidableEq, Repr, Inhabited

/-- Whether a `propstat` block's status is accepted: absent, or containing
the substring `" 200 "`. -/
def statusOk (propstat : String) : Bool :=
  let status := getTagContent propstat "status"
  status == "" || jsIncludes status " 200 "

/-- The source's propstat loop: the `prop` variable keeps the content of
the first accepted `propstat` whose `prop` block is non-empty, and stays
empty otherwise. -/
def pickProp : List String → String
  | [] => ""
  | ps :: rest =>
    if statusOk ps then
      let prop := getTagContent ps "prop"
      if prop == "" then pickProp rest else prop
    else pickProp rest

/-- Builds the stat record from a resolved `href` and the chosen `prop`
block (the record-construction tail of the `parseMultiStatus` loop body). -/
def buildStat (c : Client) (href prop : String) : WebDAVStat :=
  let resourceType := getTagContent prop "resourcetype"
  let isDirectory := hasTag resourceType "collection"
  let normalizedPath := normalizePath c href
  let segments := (splitSlash normalizedPath.data).filter fun seg => !seg.isEmpty
  let basenameSegment : List Char :=
    match segments.getLast? with
    | some seg => seg
    | none => ['/']
  let rawLen := getTagContent prop "getcontentlength"
  { filename := normalizedPath
    basename := decodeSegment ⟨basenameSegment⟩
    lastmod := getTagContent prop "getlastmodified"
    size := safeParseInteger (if rawLen == "" then "0" else rawLen)
    type := if isDirectory then "directory" else "file"
    etag := let e := getTagContent prop "getetag"; if e == "" then none else some e
    mime := let m := getTagContent prop "getcontenttype"; if m == "" then none else some m }

/-- One iteration of the `parseMultiStatus` loop: `none` models `continue`. -/
def respToStat (c : Client) (response : String) : Option WebDAVStat :=
  let href := getTagContent response "href"
  if href == "" then none
  else
    let prop := pickProp (getAllTagContents response "propstat")
    if prop == "" then none
    else some (buildStat c href prop)

/-- `parseMultiStatus` from the source. -/
def parseMultiStatus (c : Client) (xml : String) : List WebDAVStat :=
  (getAllTagContents xml "response").filterMap (respToStat c)

/-!  Header records.  Requests carry plain JavaScript objects; object
spread and property assignment are modelled on association lists whose
keys are unique (object keys are). -/

/-- Property read on a JavaScript object modelled as an association list
with unique keys: the first entry with the exact key. -/
def recLookup : List (String × String) → String → Option String
  | [], _ => none
  | kv :: rest, k => if kv.1 == k then some kv.2 else recLookup rest k

/-- JavaScript property assignment: replace the value in place, or append
a new entry. -/
def recSet : List (String × String) → String → String → List (String × String)
  | [], k, v => [(k, v)]
  | kv :: rest, k, v => if kv.1 == k then (k, v) :: rest else kv :: recSet rest k v

/-- Object spread `{...a, ...b}`: entries of `b` override entries of `a`
with the same key, new keys are appended in order. -/
def spreadRec (a b : List (String × String)) : List (String × String) :=
  b.foldl (fun acc kv => recSet acc kv.1 kv.2) a

/-- `buildHeaders` from the source: merge the client's custom headers with
the per-call headers, then add the computed `Authorization` value only when
one is configured and the merged object lacks that exact key. -/
def buildHeaders (c : Client) (additional : List (String × String)) :
    List (String × String) :=
  let headers := spreadRec c.customHeaders additional
  match c.authHeader with
  | some a =>
    if recLookup headers "Authorization" = none then recSet headers "Authorization" a
    else headers
  | none => headers

/-!  Requests and per-operation response handling.  Each operation issues
exactly one transport request and then branches only on the response; the
pure request description and the response-to-result function embed the two
halves.  -/

structure Request where
  method : String
  url : String
  headers : List (String × String)
  body : Option String
deriving DecidableEq, Repr

structure HttpResponse where
  status : Nat
  statusText : String
  body : String
deriving DecidableEq, Repr

/-- `Response.ok`: status in the 200–299 range. -/
def responseOk (r : HttpResponse) : Bool := 200 ≤ r.status && r.status ≤ 299

/-- The `request` helper from the source as a pure description; `none` when
URL resolution is outside the modelled domain. -/
def mkRequest (c : Client) (method path : String) (body : Option String)
    (additional : List (String × String)) : Option Request :=
  (resolveRequestURL c path).map fun u =>
    { method := method, url := urlToString u
      headers := buildHeaders c additional, body := body }

/-- The PROPFIND body shared by `getDirectoryContents` and `stat`. -/
def propfindBody : String :=
  "<?xml version=\"1.0\" encoding=\"utf-8\" ?>\n<d:propfind xmlns:d=\"DAV:\">\n  <d:prop>\n    <d:resourcetype/>\n    <d:getlastmodified/>\n    <d:getcontentlength/>\n    <d:getetag/>\n    <d:getcontenttype/>\n  </d:prop>\n</d:propfind>"

/-- A JavaScript number, identified by the two observations the client
makes of it: `Number.isFinite` and `toString`.  A finite double is
represented by its (unique, round-trip) decimal rendering; `intNumber`
below injects the integers whose rendering is plain decimal. -/
inductive JSNumber where
  | finite (rendering : String)
  | nan
  | posInf
  | negInf
deriving DecidableEq, Repr

def JSNumber.isFinite : JSNumber → Bool
  | .finite _ => true
  | _ => false

def JSNumber.render : JSNumber → String
  | .finite s => s
  | .nan => "NaN"
  | .posInf => "Infinity"
  | .negInf => "-Infinity"

/-- An integral double (magnitude below 2^53, rendered as plain decimal). -/
def intNumber (n : Int) : JSNumber := .finite (toString n)

/-- The `depth` argument of `getDirectoryContents`: a number or a string. -/
inductive DepthArg where
  | num (n : JSNumber)
  | str (s : String)
deriving DecidableEq, Repr

/-- The depth-to-header computation of `getDirectoryContents`: strings are
lower-cased, finite numbers are stringified, non-finite numbers become
`"infinity"`. -/
def depthValue : DepthArg → String
  | .str s => jsToLower s
  | .num n => if n.isFinite then n.render else "infinity"

/-- The request issued by `getDirectoryContents`. -/
def getDirectoryContentsRequest (c : Client) (path : String) (depth : DepthArg) :
    Option Request :=
  mkRequest c "PROPFIND" path (some propfindBody)
    [("Content-Type", "application/xml; charset=utf-8"), ("Depth", depthValue depth)]

/-- The request issued by `stat`. -/
def statRequest (c : Client) (path : String) : Option Request :=
  mkRequest c "PROPFIND" path (some propfindBody)
    [("Content-Type", "application/xml; charset=utf-8"), ("Depth", "0")]

/-- Response handling of `getDirectoryContents`: non-success throws; the
parsed entries are filtered by canonical path against the queried path. -/
def getDirectoryContentsFromResponse (c : Client) (path : String) (r : HttpResponse) :
    Except String (List WebDAVStat) :=
  if responseOk r then
    let stats := parseMultiStatus c r.body
    let targetPath := normalizePath c path
    .ok (stats.filter fun s => !(s.filename == targetPath))
  else
    .error ("Failed to get directory contents: " ++ toString r.status ++ " " ++ r.statusText)

/-- The result selection of `stat` over the parsed entries: the entry whose
canonical path matches, else the first parsed entry, else a not-found
error. -/
def statSelect (stats : List WebDAVStat) (targetPath path : String) :
    Except String WebDAVStat :=
  match stats.find? (fun s => s.filename == targetPath) with
  | some m => .ok m
  | none =>
    match stats with
    | [] => .error ("Resource not found: " ++ path)
    | s :: _ => .ok s

/-- The result-selection tail of `stat` on a parsed body. -/
def statFromXml (c : Client) (path xml : String) : Except String WebDAVStat :=
  statSelect (parseMultiStatus c xml) (normalizePath c path) path

/-- Response handling of `stat`. -/
def statFromResponse (c : Client) (path : String) (r : HttpResponse) :
    Except String WebDAVStat :=
  if responseOk r then statFromXml c path r.body
  else .error ("Failed to stat resource: " ++ toString r.status ++ " " ++ r.statusText)

/-- The literal tested by the regex `/Failed to stat resource:\s*404/`. -/
def statFailPat : List Char := "Failed to stat resource:".data

/-- A match of `/Failed to stat resource:\s*404/` starting at this
position. -/
def statFail404At (l : List Char) : Bool :=
  match stripLead statFailPat l with
  | some rest => (stripLead "404".data (rest.dropWhile isWs)).isSome
  | none => false

/-- The regex test `/Failed to stat resource:\s*404/.test(m)`. -/
def statFail404 : List Char → Bool
  | [] => false
  | l@(_ :: cs) => statFail404At l || statFail404 cs

/-- Response handling of `exists`: a stat error matching
`/Resource not found/i` or `/Failed to stat resource:\s*404/` becomes
`false`; other errors are rethrown. -/
def existsFromResponse (c : Client) (path : String) (r : HttpResponse) :
    Except String Bool :=
  match statFromResponse c path r with
  | .ok _ => .ok true
  | .error m =>
    if containsCI m "Resource not found" || statFail404 m.data then .ok false
    else .error m

/-- Response handling of `getFileContents`. -/
def getFileContentsFromResponse (r : HttpResponse) : Except String String :=
  if responseOk r then .ok r.body
  else .error ("Failed to get file contents: " ++ toString r.status ++ " " ++ r.statusText)

/-- Response handling of `putFileContents`. -/
def putFileContentsFromResponse (r : HttpResponse) : Except String Unit :=
  if responseOk r then .ok ()
  else .error ("Failed to write file: " ++ toString r.status ++ " " ++ r.statusText)

/-- Response handling of `createDirectory`. -/
def createDirectoryFromResponse (r : HttpResponse) : Except String Unit :=
  if responseOk r then .ok ()
  else .error ("Failed to create directory: " ++ toString r.status ++ " " ++ r.statusText)

/-- Response handling of `deleteFile`: 404 returns early as success. -/
def deleteFileFromResponse (r : HttpResponse) : Except String Unit :=
  if r.status = 404 then .ok ()
  else if responseOk r then .ok ()
  else .error ("Failed to delete resource: " ++ toString r.status ++ " " ++ r.statusText)

/-- The whole `deleteFile` operation: the single request it issues and the
result derived from the response. -/
def deleteFileOp (c : Client) (path : String) (r : HttpResponse) :
    Option (List Request × Except String Unit) :=
  (mkRequest c "DELETE" path none []).map fun req => ([req], deleteFileFromResponse r)

/-- The request issued by `moveFile`: `Destination` is the request-URL
resolution of the target, `Overwrite` is `"T"`/`"F"`. -/
def moveRequest (c : Client) (fromPath toPath : String) (overwrite : Bool) :
    Option Request :=
  (resolveRequestURL c toPath).bind fun dest =>
    mkRequest c "MOVE" fromPath none
      [("Destination", urlToString dest), ("Overwrite", if overwrite then "T" else "F")]

/-- Response handling of `moveFile`. -/
def moveFileFromResponse (r : HttpResponse) : Except String Unit :=
  if responseOk r then .ok ()
  else .error ("Failed to move resource: " ++ toString r.status ++ " " ++ r.statusText)

/-- The request issued by `copyFile`. -/
def copyRequest (c : Client) (fromPath toPath : String) (overwrite : Bool) :
    Option Request :=
  (resolveRequestURL c toPath).bind fun dest =>
    mkRequest c "COPY" fromPath none
      [("Destination", urlToString dest), ("Overwrite", if overwrite then "T" else "F")]

/-- Response handling of `copyFile`. -/
def copyFileFromResponse (r : HttpResponse) : Except String Unit :=
  if responseOk r then .ok ()
  else .error ("Failed to copy resource: " ++ toString r.status ++ " " ++ r.statusText)

structure WebDAVQuota where
  used : Int
  available : Int
deriving DecidableEq, Repr

/-- The propstat scan of `getQuota`: the first accepted block carrying both
quota properties. -/
def quotaScan : List String → Option WebDAVQuota
  | [] => none
  | ps :: rest =>
    let status := getTagContent ps "status"
    if !(status == "") && !(jsIncludes status " 200 ") then quotaScan rest
    else
      let prop := getTagContent ps "prop"
      if prop == "" then quotaScan rest
      else
        let quotaAvailable := getTagContent prop "quota-available-bytes"
        let quotaUsed := getTagContent prop "quota-used-bytes"
        if quotaAvailable == "" || quotaUsed == "" then quotaScan rest
        else some { used := safeParseInteger quotaUsed
                    available := safeParseInteger quotaAvailable }

/-- Response handling of `getQuota`: any non-success response yields
`null`; otherwise the body is scanned for a usable propstat. -/
def getQuotaFromResponse (_c : Client) (r : HttpResponse) :
    Except String (Option WebDAVQuota) :=
  if responseOk r then .ok (quotaScan (getAllTagContents r.body "propstat"))
  else .ok none

/-- Response handling of `search`. -/
def searchFromResponse (c : Client) (r : HttpResponse) :
    Except String (List WebDAVStat) :=
  if responseOk r then .ok (parseMultiStatus c r.body)
  else .error ("Failed to search: " ++ toString r.status ++ " " ++ r.statusText)

/-!  Concrete fixtures used by counterexamples and witnesses.  -/

/-- The example client of the test suite: base URL
`https://example.com/dav` with basic-auth credentials `user`/`pass`. -/
def exampleClient : Client :=
  mkClient ⟨"https", "example.com", "/dav"⟩ (some "user") (some "pass") []

/-- A client whose base URL has the root path, so that no base-path
stripping interferes with fixtures. -/
def rootClient : Client :=
  mkClient ⟨"https", "example.com", "/"⟩ none none []

/-- A minimal multi-status body with one entry at `/b`. -/
def statMissXml : String :=
  "<response><href>/b</href><propstat><prop><getcontentlength>7</getcontentlength></prop></propstat></response>"

/-- A multi-status body whose entries carry a negative and a
non-numeric-suffixed `getcontentlength`. -/
def sizeXml : String :=
  "<response><href>/a</href><propstat><prop><getcontentlength>-5</getcontentlength></prop></propstat></response><response><href>/b</href><propstat><prop><getcontentlength>12px</getcontentlength></prop></propstat></response>"

/-- A multi-status body whose single href carries a percent-encoded slash. -/
def slashXml : String :=
  "<response><href>/a%2Fb</href><propstat><prop><x>1</x></prop></propstat></response>"

/-!  Spec-side definitions used to state the claims.  -/

/-- Whether a string is free of query/fragment delimiters (part of the
modelled-domain hypotheses). -/
def noQF (s : String) : Bool := s.data.all fun c => !(c == '?') && !(c == '#')

/-- The claim's description of propstat selection, stated independently of
the loop: among the blocks whose status is accepted, the first whose `prop`
content is non-empty. -/
def selectProp (propstats : List String) : Option String :=
  ((propstats.filter statusOk).map fun ps => getTagContent ps "prop").find?
    fun p => !(p == "")

/-- Whether a string is the plain decimal rendering of an integer. -/
def isIntegerRepr (s : String) : Bool :=
  match s.data with
  | '-' :: ds => !ds.isEmpty && ds.all Char.isDigit
  | ds => !ds.isEmpty && ds.all Char.isDigit

/-- The Depth-header mapping as the claim states it: integers stringified,
everything else (including every other number) `"infinity"`. -/
def claimedDepthValue : DepthArg → String
  | .num (.finite s) => if isIntegerRepr s then s else "infinity"
  | .num _ => "infinity"
  | .str _ => "infinity"

end WebDAV

namespace WebDAV

/-!  Generic helper lemmas about the string utilities.  -/

theorem head?_dropWhile_false (p : Char → Bool) (l : List Char) (c : Char)
    (h : (l.dropWhile p).head? = some c) : p c = false := by
  induction l with
  | nil => simp at h
  | cons a l ih =>
    rw [List.dropWhile_cons] at h
    by_cases hpa : p a = true
    · rw [if_pos hpa] at h; exact ih h
    · rw [if_neg hpa] at h
      simp only [List.head?_cons, Option.some.injEq] at h
      subst h; simpa using hpa

theorem head?_append_left {α : Type} (a b : List α) (h : a ≠ []) :
    (a ++ b).head? = a.head? := by
  cases a with
  | nil => exact absurd rfl h
  | cons x xs => rfl

theorem stripTrailList_getLast (l : List Char) :
    (stripTrailList l).getLast? ≠ some '/' := by
  intro h
  unfold stripTrailList at h
  rw [List.getLast?_reverse] at h
  have := head?_dropWhile_false _ _ _ h
  simp at this

theorem stripTrailList_decomp (l : List Char) :
    ∃ m, l = stripTrailList l ++ m ∧ m.all (fun c => c == '/') := by
  refine ⟨(l.reverse.takeWhile fun c => c == '/').reverse, ?_, ?_⟩
  · unfold stripTrailList
    rw [← List.reverse_append, List.takeWhile_append_dropWhile, List.reverse_reverse]
  · rw [List.all_eq_true]
    intro c hc
    rw [List.mem_reverse] at hc
    simpa using List.mem_takeWhile_imp hc

theorem stripTrailList_eq_self (l : List Char) (h : l.getLast? ≠ some '/') :
    stripTrailList l = l := by
  unfold stripTrailList
  rw [← List.head?_reverse] at h
  cases hr : l.reverse with
  | nil =>
    have : l = [] := by simpa using congrArg List.reverse hr
    simp [hr, this]
  | cons a rest =>
    rw [hr] at h
    have ha : (a == '/') = false := by
      simp only [List.head?_cons] at h
      simpa using fun he => h (by rw [he])
    rw [List.dropWhile_cons]
    simp only [ha, Bool.false_eq_true, if_false]
    rw [← hr, l.reverse_reverse]

theorem stripTrailList_head (l : List Char) (h : stripTrailList l ≠ []) :
    (stripTrailList l).head? = l.head? := by
  obtain ⟨m, hm, _⟩ := stripTrailList_decomp l
  conv_rhs => rw [hm]
  rw [head?_append_left _ _ h]

theorem takeWhile_eq_self_of_all (p : Char → Bool) (l : List Char)
    (h : l.all p = true) : l.takeWhile p = l := by
  induction l with
  | nil => rfl
  | cons a l ih =>
    simp only [List.all_cons, Bool.and_eq_true] at h
    simp [List.takeWhile_cons, h.1, ih h.2]

theorem string_eq_empty_iff (s : String) : s = "" ↔ s.data = [] := by
  constructor
  · intro h; rw [h]
  · intro h
    cases s with
    | mk data => cases h; rfl

theorem data_stripTrailingSlashes (s : String) :
    (stripTrailingSlashes s).data = stripTrailList s.data := rfl

theorem data_append (a b : String) : (a ++ b).data = a.data ++ b.data := rfl

/-!  Shape of the canonicalization results: a leading slash always, a
trailing slash only for the root. -/

theorem postProcess_shape (pn : String) :
    (postProcess pn).data.head? = some '/' ∧
      (postProcess pn = "/" ∨ (postProcess pn).data.getLast? ≠ some '/') := by
  unfold postProcess
  by_cases h0 : stripTrailingSlashes pn = ""
  · rw [if_pos h0]; exact ⟨rfl, Or.inl rfl⟩
  · rw [if_neg h0]
    by_cases h1 : (stripTrailingSlashes pn).data.head? = some '/'
    · rw [if_pos h1]
      refine ⟨h1, Or.inr ?_⟩
      rw [data_stripTrailingSlashes]
      exact stripTrailList_getLast pn.data
    · rw [if_neg h1]
      constructor
      · rw [data_append]
        rfl
      · refine Or.inr ?_
        rw [data_append]
        have hne : (stripTrailingSlashes pn).data ≠ [] := by
          intro hd; exact h0 ((string_eq_empty_iff _).mpr hd)
        cases hd : (stripTrailingSlashes pn).data with
        | nil => exact absurd hd hne
        | cons a rest =>
          have : ("/" : String).data ++ a :: rest = '/' :: a :: rest := rfl
          rw [this, List.getLast?_cons_cons, ← hd, data_stripTrailingSlashes]
          exact stripTrailList_getLast pn.data

theorem ensureLead_head (p : String) : (ensureLead p).data.head? = some '/' := by
  unfold ensureLead
  by_cases h : p.data.head? = some '/'
  · rw [if_pos h]; exact h
  · rw [if_neg h, data_append]
    cases p.data <;> rfl

theorem fallbackNormalize_shape (p : String) :
    (fallbackNormalize p).data.head? = some '/' ∧
      (fallbackNormalize p = "/" ∨ (fallbackNormalize p).data.getLast? ≠ some '/') := by
  unfold fallbackNormalize
  by_cases h0 : stripTrailingSlashes (ensureLead p) = ""
  · rw [if_pos h0]; exact ⟨rfl, Or.inl rfl⟩
  · rw [if_neg h0]
    have hne : (stripTrailingSlashes (ensureLead p)).data ≠ [] := by
      intro hd; exact h0 ((string_eq_empty_iff _).mpr hd)
    constructor
    · rw [data_stripTrailingSlashes]
      rw [data_stripTrailingSlashes] at hne
      rw [stripTrailList_head (ensureLead p).data hne]
      exact ensureLead_head p
    · refine Or.inr ?_
      rw [data_stripTrailingSlashes]
      exact stripTrailList_getLast (ensureLead p).data

theorem normalizePath_shape (c : Client) (p : String) :
    (normalizePath c p).data.head? = some '/' ∧
      (normalizePath c p = "/" ∨ (normalizePath c p).data.getLast? ≠ some '/') := by
  unfold normalizePath
  cases h : resolveURL c p with
  | some url => exact postProcess_shape _
  | none => exact fallbackNormalize_shape p

/-- Claim C9 — `normalizePath` is total and always yields a canonical path
(leading slash; a trailing slash only at the root); when URL resolution
fails it returns exactly the string-based fallback (leading slash ensured,
trailing slashes stripped, empty collapsed to `/`), which has the same
canonical shape. -/
theorem claim_C9 (c : Client) (p : String) :
    (normalizePath c p).data.head? = some '/' ∧
      (normalizePath c p = "/" ∨ (normalizePath c p).data.getLast? ≠ some '/') ∧
      (resolveURL c p = none → normalizePath c p = fallbackNormalize p) ∧
      ((fallbackNormalize p).data.head? = some '/' ∧
        (fallbackNormalize p = "/" ∨ (fallbackNormalize p).data.getLast? ≠ some '/')) := by
  obtain ⟨h1, h2⟩ := normalizePath_shape c p
  refine ⟨h1, h2, ?_, fallbackNormalize_shape p⟩
  intro h
  unfold normalizePath
  rw [h]

/-- Witness for C9 at a concrete input. -/
theorem claim_C9_witness :
    (normalizePath exampleClient "a/b//").data.head? = some '/' ∧
      (normalizePath exampleClient "a/b//" = "/" ∨
        (normalizePath exampleClient "a/b//").data.getLast? ≠ some '/') ∧
      (resolveURL exampleClient "a/b//" = none →
        normalizePath exampleClient "a/b//" = fallbackNormalize "a/b//") ∧
      ((fallbackNormalize "a/b//").data.head? = some '/' ∧
        (fallbackNormalize "a/b//" = "/" ∨
          (fallbackNormalize "a/b//").data.getLast? ≠ some '/')) :=
  claim_C9 exampleClient "a/b//"

/-!  Claim C2: canonicalization and idempotence.  -/

theorem string_mk_data (s : String) : (⟨s.data⟩ : String) = s := by
  cases s; rfl

theorem all_of_subset (q : Char → Bool) {l m : List Char}
    (hm : ∀ a, a ∈ m → a ∈ l) (h : l.all q = true) : m.all q = true := by
  rw [List.all_eq_true] at *
  intro a ha
  exact h a (hm a ha)

theorem mem_of_mem_dropWhile (p : Char → Bool) (l : List Char) (a : Char)
    (h : a ∈ l.dropWhile p) : a ∈ l := by
  induction l with
  | nil => simp at h
  | cons b l ih =>
    rw [List.dropWhile_cons] at h
    by_cases hb : p b = true
    · rw [if_pos hb] at h
      exact List.mem_cons_of_mem b (ih h)
    · rw [if_neg hb] at h
      exact h

theorem mem_of_mem_stripTrailList (l : List Char) (a : Char)
    (h : a ∈ stripTrailList l) : a ∈ l := by
  obtain ⟨m, hm, _⟩ := stripTrailList_decomp l
  rw [hm]
  exact List.mem_append_left m h

theorem mem_of_mem_upToLastSlash (l : List Char) (a : Char)
    (h : a ∈ upToLastSlash l) : a ∈ l := by
  unfold upToLastSlash at h
  rw [List.mem_reverse] at h
  rw [← List.mem_reverse]
  exact mem_of_mem_dropWhile _ _ _ h

theorem all_stripQF (l : List Char) :
    (stripQF l).all (fun c => !(c == '?') && !(c == '#')) = true := by
  rw [List.all_eq_true]
  intro a ha
  unfold stripQF at ha
  simpa using List.mem_takeWhile_imp ha

theorem noQF_stripBasePath (c : Client) (pn : String) (h : noQF pn = true) :
    noQF (stripBasePath c pn) = true := by
  unfold stripBasePath
  split
  · exact all_of_subset _ (fun a ha => List.drop_subset _ _ ha) h
  · exact h

theorem noQF_postProcess (pn : String) (h : noQF pn = true) :
    noQF (postProcess pn) = true := by
  unfold postProcess
  have hstrip : noQF (stripTrailingSlashes pn) = true :=
    all_of_subset _ (fun a ha => mem_of_mem_stripTrailList _ _ ha) h
  by_cases h0 : stripTrailingSlashes pn = ""
  · rw [if_pos h0]; decide
  · rw [if_neg h0]
    by_cases h1 : (stripTrailingSlashes pn).data.head? = some '/'
    · rw [if_pos h1]; exact hstrip
    · rw [if_neg h1]
      unfold noQF
      rw [data_append, List.all_append]
      unfold noQF at hstrip
      rw [hstrip]
      decide

theorem absHostPath_pathname_noQF (scheme : String) (tail : List Char) (u : JSURL)
    (h : absHostPath scheme tail = some u) : noQF u.pathname = true := by
  simp only [absHostPath] at h
  split at h
  · exact absurd h (by simp)
  · simp only [Option.some.injEq] at h
    subst h
    unfold noQF
    simp only
    split
    · exact all_stripQF _
    · decide

theorem parseAbsURL_pathname_noQF (s : String) (u : JSURL)
    (h : parseAbsURL s = some u) : noQF u.pathname = true := by
  unfold parseAbsURL at h
  split at h
  · exact absurd h (by simp)
  · split at h
    · split at h
      · exact absHostPath_pathname_noQF _ _ _ h
      · exact absurd h (by simp)
    · exact absurd h (by simp)

theorem jsResolve_pathname_noQF (base : JSURL) (rel : String) (u : JSURL)
    (hbase : noQF base.pathname = true)
    (h : jsResolve base rel = some u) : noQF u.pathname = true := by
  unfold jsResolve at h
  split at h
  · exact absurd h (by simp)
  · split at h
    · simp only [Option.some.injEq] at h
      subst h
      exact all_stripQF _
    · simp only [Option.some.injEq] at h
      subst h
      unfold noQF
      simp only
      rw [List.all_append]
      have h3 : (upToLastSlash base.pathname.data).all
          (fun c => !(c == '?') && !(c == '#')) = true :=
        all_of_subset _ (fun a ha => mem_of_mem_upToLastSlash _ _ ha) hbase
      rw [h3, all_stripQF]
      rfl

theorem resolveURL_pathname_noQF (c : Client) (P : String) (u : JSURL)
    (hbase : noQF c.base.pathname = true)
    (h : resolveURL c P = some u) : noQF u.pathname = true := by
  unfold resolveURL at h
  split at h
  · exact parseAbsURL_pathname_noQF _ _ h
  · exact jsResolve_pathname_noQF _ _ _ hbase h

theorem normalizePath_noQF (c : Client) (P : String)
    (hbase : noQF c.base.pathname = true)
    (hres : (resolveURL c P).isSome = true) :
    noQF (normalizePath c P) = true := by
  obtain ⟨u, hu⟩ := Option.isSome_iff_exists.mp hres
  unfold normalizePath
  rw [hu]
  exact noQF_postProcess _ (noQF_stripBasePath _ _ (resolveURL_pathname_noQF c P u hbase hu))

theorem schemeLike_of_head_slash (q : String) (h : q.data.head? = some '/') :
    schemeLike q = false := by
  unfold schemeLike
  cases hq : q.data with
  | nil => rfl
  | cons c rest =>
    rw [hq, List.head?_cons, Option.some.injEq] at h
    subst h
    have h1 : ('/' : Char).isAlpha = false := by decide
    simp only [h1, Bool.false_and]

theorem stripTrailingSlashes_root : stripTrailingSlashes "/" = "" := by decide

theorem stripTrailingSlashes_eq_self (q : String) (h : q.data.getLast? ≠ some '/') :
    stripTrailingSlashes q = q := by
  unfold stripTrailingSlashes
  rw [stripTrailList_eq_self q.data h]

theorem postProcess_canonical_fix (q : String)
    (hhead : q.data.head? = some '/')
    (hlast : q = "/" ∨ q.data.getLast? ≠ some '/') :
    postProcess q = q := by
  unfold postProcess
  cases hlast with
  | inl hroot =>
    subst hroot
    rw [stripTrailingSlashes_root]
    decide
  | inr hl =>
    rw [stripTrailingSlashes_eq_self q hl]
    have hne : ¬ q = "" := by
      intro h0
      rw [string_eq_empty_iff] at h0
      rw [h0] at hhead
      exact absurd hhead (by simp)
    rw [if_neg hne, if_pos hhead]

theorem fallbackNormalize_canonical_fix (q : String)
    (hhead : q.data.head? = some '/')
    (hlast : q = "/" ∨ q.data.getLast? ≠ some '/') :
    fallbackNormalize q = q := by
  unfold fallbackNormalize
  have hens : ensureLead q = q := by unfold ensureLead; exact if_pos hhead
  rw [hens]
  cases hlast with
  | inl hroot =>
    subst hroot
    rw [stripTrailingSlashes_root]
    decide
  | inr hl =>
    rw [stripTrailingSlashes_eq_self q hl]
    have hne : ¬ q = "" := by
      intro h0
      rw [string_eq_empty_iff] at h0
      rw [h0] at hhead
      exact absurd hhead (by simp)
    rw [if_neg hne]

theorem stripBasePath_of_not_under (c : Client) (q : String)
    (h : c.basePath = "/" ∨ ¬ underBaseP c q) :
    stripBasePath c q = q := by
  unfold stripBasePath
  rw [if_neg]
  rintro ⟨h1, h2⟩
  cases h with
  | inl hb => exact h1 hb
  | inr hu => exact hu h2

/-- Canonical paths outside the base-path shadow are fixpoints of
`normalizePath`. -/
theorem normalizePath_canonical_fix (c : Client) (q : String)
    (hhead : q.data.head? = some '/')
    (hlast : q = "/" ∨ q.data.getLast? ≠ some '/')
    (hqf : noQF q = true)
    (hbp : c.basePath = "/" ∨ ¬ underBaseP c q) :
    normalizePath c q = q := by
  unfold normalizePath resolveURL
  rw [schemeLike_of_head_slash q hhead]
  simp only [Bool.false_eq_true, if_false]
  unfold jsResolve
  by_cases h2 : ['/', '/'].isPrefixOf q.data = true
  · rw [if_pos h2]
    exact fallbackNormalize_canonical_fix q hhead hlast
  · rw [if_neg h2, if_pos hhead]
    simp only
    have hq : stripQF q.data = q.data := by
      unfold stripQF
      exact takeWhile_eq_self_of_all _ _ hqf
    rw [hq, string_mk_data]
    rw [stripBasePath_of_not_under c q hbp]
    exact postProcess_canonical_fix q hhead hlast

/-- Claim C2 (amended) — on the modelled domain, canonicalizing an already
canonicalized path returns it unchanged provided the canonical result does
not itself begin with the configured base path (re-canonicalizing a path
under the base path strips the base prefix a second time); and `"a/b/"`,
`"/a/b/"` and the absolute URL under the example base all canonicalize to
`"/a/b"`. -/
theorem claim_C2 (c : Client) (P : String)
    (hbase : noQF c.base.pathname = true)
    (hres : (resolveURL c P).isSome = true)
    (hbp : c.basePath = "/" ∨ ¬ underBaseP c (normalizePath c P)) :
    normalizePath c (normalizePath c P) = normalizePath c P ∧
      (normalizePath exampleClient "a/b/" = "/a/b" ∧
        normalizePath exampleClient "/a/b/" = "/a/b" ∧
        normalizePath exampleClient "https://example.com/dav/a/b/" = "/a/b") := by
  obtain ⟨h1, h2⟩ := normalizePath_shape c P
  refine ⟨normalizePath_canonical_fix c _ h1 h2 (normalizePath_noQF c P hbase hres) hbp, ?_, ?_, ?_⟩
  · decide
  · decide
  · decide

/-- Counterexample to C2 as stated: with base path `/dav`, the path
`/dav/dav/x` canonicalizes to `/dav/x`, which canonicalizes again to `/x`
— `normalizePath` is not idempotent on every input. -/
theorem claim_C2_counterexample :
    normalizePath exampleClient (normalizePath exampleClient "/dav/dav/x") ≠
      normalizePath exampleClient "/dav/dav/x" := by decide

/-- Witness for the amended C2 at a concrete input. -/
theorem claim_C2_witness :
    normalizePath exampleClient (normalizePath exampleClient "a/b/") =
        normalizePath exampleClient "a/b/" ∧
      (normalizePath exampleClient "a/b/" = "/a/b" ∧
        normalizePath exampleClient "/a/b/" = "/a/b" ∧
        normalizePath exampleClient "https://example.com/dav/a/b/" = "/a/b") :=
  claim_C2 exampleClient "a/b/" (by decide) (by decide)
    (Or.inr (by decide))

/-!  Membership in the parsed entry list.  -/

theorem mem_parseMultiStatus (c : Client) (xml : String) (s : WebDAVStat)
    (hs : s ∈ parseMultiStatus c xml) :
    ∃ r ∈ getAllTagContents xml "response",
      ¬ getTagContent r "href" = "" ∧
        ¬ pickProp (getAllTagContents r "propstat") = "" ∧
        s = buildStat c (getTagContent r "href")
              (pickProp (getAllTagContents r "propstat")) := by
  unfold parseMultiStatus at hs
  obtain ⟨r, hr, hrs⟩ := List.mem_filterMap.mp hs
  refine ⟨r, hr, ?_⟩
  simp only [respToStat] at hrs
  by_cases h1 : (getTagContent r "href" == "") = true
  · rw [if_pos h1] at hrs; exact absurd hrs (by simp)
  · rw [if_neg h1] at hrs
    by_cases h2 : (pickProp (getAllTagContents r "propstat") == "") = true
    · rw [if_pos h2] at hrs; exact absurd hrs (by simp)
    · rw [if_neg h2] at hrs
      simp only [Option.some.injEq] at hrs
      exact ⟨by simpa using h1, by simpa using h2, hrs.symm⟩

/-!  Claim C7: shape of `filename` and `basename`.  -/

theorem splitSlash_ne_nil (l : List Char) : splitSlash l ≠ [] := by
  cases l with
  | nil => simp [splitSlash]
  | cons c cs =>
    unfold splitSlash
    by_cases h : (c == '/') = true
    · rw [if_pos h]; simp
    · rw [if_neg h]
      cases splitSlash cs <;> simp

theorem mem_splitSlash_no_slash (l : List Char) :
    ∀ seg ∈ splitSlash l, '/' ∉ seg := by
  induction l with
  | nil =>
    intro seg h
    simp only [splitSlash, List.mem_singleton] at h
    subst h; simp
  | cons c cs ih =>
    intro seg h
    unfold splitSlash at h
    by_cases hc : (c == '/') = true
    · rw [if_pos hc] at h
      rcases List.mem_cons.mp h with h1 | h2
      · subst h1; simp
      · exact ih seg h2
    · rw [if_neg hc] at h
      cases hsp : splitSlash cs with
      | nil => exact absurd hsp (splitSlash_ne_nil cs)
      | cons t ts =>
        rw [hsp] at h
        rcases List.mem_cons.mp h with h1 | h2
        · subst h1
          intro hmem
          rcases List.mem_cons.mp hmem with h3 | h4
          · rw [← h3] at hc; simp at hc
          · exact ih t (hsp ▸ List.mem_cons_self t ts) h4
        · exact ih seg (hsp ▸ List.mem_cons_of_mem t h2)

theorem buildStat_filename (c : Client) (href prop : String) :
    (buildStat c href prop).filename = normalizePath c href := rfl

theorem buildStat_basename_segment (c : Client) (href prop : String) :
    ∃ seg : String, ((buildStat c href prop).basename = decodeSegment seg) ∧
      (seg = "/" ∨ '/' ∉ seg.data) := by
  simp only [buildStat]
  cases hgl : ((splitSlash (normalizePath c href).data).filter
      fun seg => !seg.isEmpty).getLast? with
  | none => exact ⟨"/", rfl, Or.inl rfl⟩
  | some seg =>
    refine ⟨⟨seg⟩, rfl, Or.inr ?_⟩
    have hmem : seg ∈ (splitSlash (normalizePath c href).data).filter
        fun seg => !seg.isEmpty := by
      obtain ⟨hne, heq⟩ := List.mem_getLast?_eq_getLast (by rw [hgl]; rfl)
      rw [heq]
      exact List.getLast_mem hne
    exact mem_splitSlash_no_slash _ seg (List.mem_of_mem_filter hmem)

/-- Claim C7 (amended) — every parsed entry's `filename` is canonical (a
leading slash, no trailing slash except for the root), and its `basename`
is the percent-decoding of a segment that contains no `/` (or is the
literal root segment `/`); the decoding itself can reintroduce a slash. -/
theorem claim_C7 (c : Client) (xml : String) (s : WebDAVStat)
    (hs : s ∈ parseMultiStatus c xml) :
    (s.filename.data.head? = some '/' ∧
      (s.filename = "/" ∨ s.filename.data.getLast? ≠ some '/')) ∧
      ∃ seg : String, (s.basename = decodeSegment seg) ∧
        (seg = "/" ∨ '/' ∉ seg.data) := by
  obtain ⟨r, _, _, _, hb⟩ := mem_parseMultiStatus c xml s hs
  subst hb
  constructor
  · rw [buildStat_filename]
    exact normalizePath_shape c _
  · exact buildStat_basename_segment c _ _

/-- Counterexample to C7 as stated: an href whose last segment is `a%2Fb`
percent-decodes to a basename `a/b` that contains a slash. -/
theorem claim_C7_counterexample :
    (parseMultiStatus rootClient slashXml).map (fun s => s.basename) = ["a/b"] ∧
      '/' ∈ ("a/b" : String).data := by
  constructor
  · decide
  · decide

/-- Witness for the amended C7 on a concrete parsed entry. -/
theorem claim_C7_witness :
    ((parseMultiStatus rootClient slashXml).headI.filename.data.head? = some '/' ∧
      ((parseMultiStatus rootClient slashXml).headI.filename = "/" ∨
        (parseMultiStatus rootClient slashXml).headI.filename.data.getLast? ≠ some '/')) ∧
      ∃ seg : String,
        ((parseMultiStatus rootClient slashXml).headI.basename = decodeSegment seg) ∧
        (seg = "/" ∨ '/' ∉ seg.data) :=
  claim_C7 rootClient slashXml (parseMultiStatus rootClient slashXml).headI
    (by decide)

/-!  Claim C3: the size field.  -/

theorem nonneg_of_map_natCast (o : Option Nat) (n : Int)
    (h : o.map (fun m => (m : Int)) = some n) : 0 ≤ n := by
  cases o with
  | none => exact absurd h (by simp)
  | some m =>
    have h2 : (m : Int) = n := Option.some.inj h
    omega

theorem jsParseIntSigned_nonneg (l : List Char) (hh : l.head? ≠ some '-') (n : Int)
    (hn : jsParseIntSigned l = some n) : 0 ≤ n := by
  cases l with
  | nil => exact nonneg_of_map_natCast (jsParseIntDigits []) _ hn
  | cons a rest =>
    by_cases hm : a = '-'
    · subst hm
      exact absurd rfl hh
    · by_cases hp : a = '+'
      · subst hp
        exact nonneg_of_map_natCast (jsParseIntDigits rest) _ hn
      · have he : jsParseIntSigned (a :: rest) =
            (jsParseIntDigits (a :: rest)).map fun m => (m : Int) := by
          unfold jsParseIntSigned
          split
          · rename_i heq
            injection heq with h1 _
            exact absurd h1 hm
          · rename_i heq
            injection heq with h1 _
            exact absurd h1 hp
          · rfl
        rw [he] at hn
        exact nonneg_of_map_natCast (jsParseIntDigits (a :: rest)) _ hn

theorem jsParseInt_nonneg (s : String)
    (h : (s.data.dropWhile isWs).head? ≠ some '-') (n : Int)
    (hn : jsParseInt s = some n) : 0 ≤ n :=
  jsParseIntSigned_nonneg _ h n hn

theorem safeParseInteger_zero_of_none (s : String) (h : jsParseInt s = none) :
    safeParseInteger s = 0 := by
  unfold safeParseInteger
  rw [h]
  rfl

theorem buildStat_size (c : Client) (href prop : String) :
    (buildStat c href prop).size =
      safeParseInteger
        (if (getTagContent prop "getcontentlength" == "") = true then "0"
         else getTagContent prop "getcontentlength") := rfl

/-- Claim C3 (amended) — every parsed entry's size is `parseInt` of the
`getcontentlength` content: 0 when the property is missing/empty or has no
leading integer, the parsed (sign-carrying) value otherwise; it is
non-negative whenever the content does not begin with a minus sign after
whitespace, but a negative server value is passed through. -/
theorem claim_C3 (c : Client) (xml : String) (s : WebDAVStat)
    (hs : s ∈ parseMultiStatus c xml) :
    ∃ r ∈ getAllTagContents xml "response",
      (let raw := getTagContent (pickProp (getAllTagContents r "propstat"))
        "getcontentlength"
      (raw = "" → s.size = 0) ∧
        (jsParseInt raw = none ∧ raw ≠ "" → s.size = 0) ∧
        (∀ n : Int, jsParseInt raw = some n → raw ≠ "" → s.size = n) ∧
        ((raw.data.dropWhile isWs).head? ≠ some '-' → 0 ≤ s.size)) := by
  obtain ⟨r, hr, _, _, hb⟩ := mem_parseMultiStatus c xml s hs
  refine ⟨r, hr, ?_⟩
  set raw := getTagContent (pickProp (getAllTagContents r "propstat"))
    "getcontentlength" with hraw
  subst hb
  rw [buildStat_size]
  rw [← hraw]
  refine ⟨?_, ?_, ?_, ?_⟩
  · intro h0
    rw [if_pos (by simpa using h0)]
    decide
  · rintro ⟨hnone, hne⟩
    rw [if_neg (by simpa using hne)]
    exact safeParseInteger_zero_of_none raw hnone
  · intro n hn hne
    rw [if_neg (by simpa using hne)]
    unfold safeParseInteger
    rw [hn]
    rfl
  · intro hminus
    by_cases hne : raw = ""
    · rw [if_pos (by simpa using hne)]
      decide
    · rw [if_neg (by simpa using hne)]
      cases hn : jsParseInt raw with
      | none => rw [safeParseInteger_zero_of_none raw hn]
      | some n =>
        have h1 : safeParseInteger raw = n := by
          unfold safeParseInteger; rw [hn]; rfl
        rw [h1]
        exact jsParseInt_nonneg raw hminus n hn

/-- Counterexample to C3 as stated: a `getcontentlength` of `-5` yields a
negative size, and the non-numeric string `12px` yields 12, not 0. -/
theorem claim_C3_counterexample :
    (parseMultiStatus rootClient sizeXml).map (fun s => s.size) = [-5, 12] ∧
      ((-5 : Int) < 0 ∧ (12 : Int) ≠ 0) := by
  constructor
  · decide
  · decide

/-- Witness for the amended C3 on a concrete parsed entry. -/
theorem claim_C3_witness :
    ∃ r ∈ getAllTagContents sizeXml "response",
      (let raw := getTagContent (pickProp (getAllTagContents r "propstat"))
        "getcontentlength"
      (raw = "" → (parseMultiStatus rootClient sizeXml).headI.size = 0) ∧
        (jsParseInt raw = none ∧ raw ≠ "" →
          (parseMultiStatus rootClient sizeXml).headI.size = 0) ∧
        (∀ n : Int, jsParseInt raw = some n → raw ≠ "" →
          (parseMultiStatus rootClient sizeXml).headI.size = n) ∧
        ((raw.data.dropWhile isWs).head? ≠ some '-' →
          0 ≤ (parseMultiStatus rootClient sizeXml).headI.size)) :=
  claim_C3 rootClient sizeXml (parseMultiStatus rootClient sizeXml).headI (by decide)

/-!  Claim C1: stat's behaviour when no parsed entry matches.  -/

/-- Claim C1 (amended) — when no parsed entry's canonical path equals the
canonicalized queried path, `stat` returns the FIRST parsed entry when the
list is non-empty (even though its canonical path differs from the query),
and fails with the not-found error exactly when the list is empty. -/
theorem claim_C1 (c : Client) (path xml : String)
    (hnomatch : (parseMultiStatus c xml).find?
      (fun s => s.filename == normalizePath c path) = none) :
    statFromXml c path xml =
      (match (parseMultiStatus c xml).head? with
       | some s => Except.ok s
       | none => Except.error ("Resource not found: " ++ path)) := by
  unfold statFromXml statSelect
  rw [hnomatch]
  cases parseMultiStatus c xml <;> rfl

/-- Counterexample to C1 as stated: a multi-status body parsing to the
single entry `/b` queried at path `a` (canonical `/a`): no entry matches,
yet `stat` succeeds with the `/b` entry instead of failing not-found. -/
theorem claim_C1_counterexample :
    parseMultiStatus rootClient statMissXml ≠ [] ∧
      ((parseMultiStatus rootClient statMissXml).all
        fun s => !(s.filename == normalizePath rootClient "a")) = true ∧
      statFromXml rootClient "a" statMissXml =
        Except.ok ⟨"/b", "b", "", 7, "file", none, none⟩ ∧
      ¬ ("/b" : String) = normalizePath rootClient "a" := by
  refine ⟨by decide, by decide, by decide, by decide⟩

/-- Witness for the amended C1 at a concrete input. -/
theorem claim_C1_witness :
    statFromXml rootClient "a" statMissXml =
      (match (parseMultiStatus rootClient statMissXml).head? with
       | some s => Except.ok s
       | none => Except.error ("Resource not found: " ++ "a")) :=
  claim_C1 rootClient "a" statMissXml (by decide)

/-!  Claim C6: structure of the multi-status parser.  -/

theorem pickProp_selectProp (l : List String) :
    pickProp l = (selectProp l).getD "" := by
  induction l with
  | nil => rfl
  | cons ps rest ih =>
    simp only [pickProp, selectProp] at *
    by_cases hs : statusOk ps = true
    · rw [List.filter_cons_of_pos hs, List.map_cons]
      by_cases hp : (getTagContent ps "prop" == "") = true
      · rw [List.find?_cons_of_neg _ (by simpa using hp)]
        rw [if_pos hs, if_pos hp]
        exact ih
      · rw [List.find?_cons_of_pos _ (by simpa using hp)]
        rw [if_pos hs, if_neg hp]
        rfl
    · rw [List.filter_cons_of_neg (by simpa using hs)]
      rw [if_neg hs]
      exact ih

theorem selectProp_some_ne (l : List String) (p : String)
    (h : selectProp l = some p) : ¬ p = "" := by
  have := List.find?_some h
  simpa using this

theorem respToStat_eq_selectProp (c : Client) (r : String) :
    respToStat c r =
      (if getTagContent r "href" = "" then none
       else (selectProp (getAllTagContents r "propstat")).map
         (buildStat c (getTagContent r "href"))) := by
  simp only [respToStat]
  by_cases h1 : getTagContent r "href" = ""
  · rw [if_pos (show (getTagContent r "href" == "") = true by simpa using h1), if_pos h1]
  · rw [if_neg (show ¬ (getTagContent r "href" == "") = true by simpa using h1),
      if_neg h1]
    cases hsel : selectProp (getAllTagContents r "propstat") with
    | none =>
      have hp : pickProp (getAllTagContents r "propstat") = "" := by
        rw [pickProp_selectProp, hsel]
        rfl
      simp [hp]
    | some p =>
      have hne := selectProp_some_ne _ _ hsel
      have hp : pickProp (getAllTagContents r "propstat") = p := by
        rw [pickProp_selectProp, hsel]
        rfl
      simp [hp, hne]

theorem length_filterMap_eq_countP {α β : Type} (f : α → Option β) (l : List α) :
    (l.filterMap f).length = l.countP fun a => (f a).isSome := by
  induction l with
  | nil => rfl
  | cons a l ih =>
    rw [List.filterMap_cons, List.countP_cons]
    cases h : f a with
    | none => simp [h, ih]
    | some b => simp [h, ih]

/-- Claim C6 — the parser emits, in response order, one record per
`response` element with a non-empty href whose propstat list contains an
accepted block (status absent or containing `" 200 "`) with non-empty
`prop` content, built from the FIRST such block; responses without one
contribute nothing, and the output length counts exactly the qualifying
responses. -/
theorem claim_C6 (c : Client) (xml : String) :
    parseMultiStatus c xml =
      (getAllTagContents xml "response").filterMap (fun r =>
        if getTagContent r "href" = "" then none
        else (selectProp (getAllTagContents r "propstat")).map
          (buildStat c (getTagContent r "href"))) ∧
      (parseMultiStatus c xml).length =
        (getAllTagContents xml "response").countP (fun r =>
          !(getTagContent r "href" == "") &&
            (selectProp (getAllTagContents r "propstat")).isSome) := by
  constructor
  · unfold parseMultiStatus
    exact congrArg (fun f => List.filterMap f (getAllTagContents xml "response"))
      (funext fun r => respToStat_eq_selectProp c r)
  · unfold parseMultiStatus
    rw [length_filterMap_eq_countP]
    have hpt : ∀ r, (respToStat c r).isSome =
        (!(getTagContent r "href" == "") &&
          (selectProp (getAllTagContents r "propstat")).isSome) := by
      intro r
      rw [respToStat_eq_selectProp]
      by_cases h : getTagContent r "href" = ""
      · simp [h]
      · simp [h]
    exact congrArg (fun p => List.countP p (getAllTagContents xml "response"))
      (funext hpt)

/-!  Claim C10: header assembly.  -/

theorem recLookup_cons (kv : String × String) (r : List (String × String)) (k : String) :
    recLookup (kv :: r) k =
      if (kv.1 == k) = true then some kv.2 else recLookup r k := rfl

theorem recLookup_recSet (r : List (String × String)) (k v k' : String) :
    recLookup (recSet r k v) k' = if k' = k then some v else recLookup r k' := by
  induction r with
  | nil =>
    simp only [recSet, recLookup]
    by_cases h : k' = k
    · subst h; simp
    · rw [if_neg (by simpa using fun he : k = k' => h he.symm), if_neg h]
  | cons kv rest ih =>
    simp only [recSet]
    by_cases h : (kv.1 == k) = true
    · have hk : kv.1 = k := by simpa using h
      rw [if_pos h]
      simp only [recLookup]
      by_cases h2 : k' = k
      · subst h2
        rw [if_pos (by simp), if_pos rfl]
      · rw [if_neg (by simpa using fun he : k = k' => h2 he.symm), if_neg h2,
          if_neg (by simp only [beq_iff_eq, hk]; exact fun he => h2 he.symm)]
    · rw [if_neg h]
      simp only [recLookup, ih]
      by_cases h2 : (kv.1 == k') = true
      · have hne : ¬ k' = k := by
          intro he
          subst he
          exact h h2
        rw [if_pos h2, if_neg hne, if_pos h2]
      · rw [if_neg h2, if_neg h2]

theorem recLookup_eq_none_of_not_key (r : List (String × String)) (k : String)
    (h : ¬ k ∈ r.map Prod.fst) : recLookup r k = none := by
  induction r with
  | nil => rfl
  | cons kv rest ih =>
    rw [recLookup_cons]
    have h1 : ¬ (kv.1 == k) = true := by
      simp only [beq_iff_eq]
      intro he
      exact h (by rw [List.map_cons, ← he]; exact List.mem_cons_self _ _)
    rw [if_neg h1]
    exact ih fun hm => h (by rw [List.map_cons]; exact List.mem_cons_of_mem _ hm)

theorem spreadRec_cons (a : List (String × String)) (kv : String × String)
    (b : List (String × String)) :
    spreadRec a (kv :: b) = spreadRec (recSet a kv.1 kv.2) b := rfl

/-- Object-spread lookup: entries of the second object win, first-object
entries show through where the second lacks the key (keys of a JavaScript
object literal are unique). -/
theorem recLookup_spreadRec (a b : List (String × String)) (k : String)
    (hnd : (b.map Prod.fst).Nodup) :
    recLookup (spreadRec a b) k =
      (match recLookup b k with
       | some v => some v
       | none => recLookup a k) := by
  induction b generalizing a with
  | nil => rfl
  | cons kv rest ih =>
    rw [List.map_cons] at hnd
    obtain ⟨hni, hnd2⟩ := List.nodup_cons.mp hnd
    rw [spreadRec_cons, ih _ hnd2, recLookup_cons]
    by_cases h2 : (kv.1 == k) = true
    · have hk : kv.1 = k := by simpa using h2
      subst hk
      have hrest : recLookup rest kv.1 = none := recLookup_eq_none_of_not_key _ _ hni
      rw [hrest, if_pos h2]
      simp only
      rw [recLookup_recSet, if_pos rfl]
    · rw [if_neg h2]
      cases hr : recLookup rest k with
      | some v => rfl
      | none =>
        simp only
        rw [recLookup_recSet, if_neg (by simpa using fun he : k = kv.1 => h2 (by simp [he]))]

theorem buildHeaders_auth_added (c : Client) (add : List (String × String)) (a : String)
    (ha : c.authHeader = some a)
    (hmiss : recLookup (spreadRec c.customHeaders add) "Authorization" = none) :
    recLookup (buildHeaders c add) "Authorization" = some a := by
  unfold buildHeaders
  rw [ha]
  simp only
  rw [if_pos hmiss, recLookup_recSet, if_pos rfl]

theorem buildHeaders_auth_kept (c : Client) (add : List (String × String)) (v : String)
    (hv : recLookup (spreadRec c.customHeaders add) "Authorization" = some v) :
    recLookup (buildHeaders c add) "Authorization" = some v := by
  unfold buildHeaders
  cases c.authHeader with
  | none => exact hv
  | some a =>
    simp only
    rw [if_neg (by rw [hv]; simp)]
    exact hv

theorem buildHeaders_no_auth (c : Client) (add : List (String × String))
    (h : c.authHeader = none) :
    buildHeaders c add = spreadRec c.customHeaders add := by
  unfold buildHeaders
  rw [h]

theorem buildHeaders_other_key (c : Client) (add : List (String × String)) (k : String)
    (hk : ¬ k = "Authorization") :
    recLookup (buildHeaders c add) k = recLookup (spreadRec c.customHeaders add) k := by
  unfold buildHeaders
  cases c.authHeader with
  | none => rfl
  | some a =>
    simp only
    by_cases h : recLookup (spreadRec c.customHeaders add) "Authorization" = none
    · rw [if_pos h, recLookup_recSet, if_neg hk]
    · rw [if_neg h]

/-- Claim C10 — the computed basic-auth header is attached exactly when
credentials were configured and the merged headers lack the exact key
`"Authorization"`; a key differing only in case (such as `"authorization"`)
does not suppress it; per-call headers override client headers sharing the
same exact key, and all other keys pass through unchanged. -/
theorem claim_C10 (c : Client) (add : List (String × String))
    (hnd : (add.map Prod.fst).Nodup) :
    (∀ a, c.authHeader = some a →
        recLookup (spreadRec c.customHeaders add) "Authorization" = none →
        recLookup (buildHeaders c add) "Authorization" = some a) ∧
      (∀ v, recLookup (spreadRec c.customHeaders add) "Authorization" = some v →
        recLookup (buildHeaders c add) "Authorization" = some v) ∧
      (c.authHeader = none → buildHeaders c add = spreadRec c.customHeaders add) ∧
      (∀ k, ¬ k = "Authorization" →
        recLookup (buildHeaders c add) k = recLookup (spreadRec c.customHeaders add) k) ∧
      (∀ k v, recLookup add k = some v →
        recLookup (spreadRec c.customHeaders add) k = some v) ∧
      (∀ a v, c.authHeader = some a →
        recLookup add "authorization" = some v →
        recLookup add "Authorization" = none →
        recLookup c.customHeaders "Authorization" = none →
        recLookup (buildHeaders c add) "Authorization" = some a ∧
          recLookup (buildHeaders c add) "authorization" = some v) := by
  refine ⟨?_, ?_, buildHeaders_no_auth c add, buildHeaders_other_key c add, ?_, ?_⟩
  · intro a ha hmiss
    exact buildHeaders_auth_added c add a ha hmiss
  · intro v hv
    exact buildHeaders_auth_kept c add v hv
  · intro k v hv
    rw [recLookup_spreadRec _ _ _ hnd, hv]
  · intro a v ha hlow hnoup hcust
    have hmiss : recLookup (spreadRec c.customHeaders add) "Authorization" = none := by
      rw [recLookup_spreadRec _ _ _ hnd, hnoup]
      exact hcust
    refine ⟨buildHeaders_auth_added c add a ha hmiss, ?_⟩
    have hl : recLookup (spreadRec c.customHeaders add) "authorization" = some v := by
      rw [recLookup_spreadRec _ _ _ hnd, hlow]
    rw [buildHeaders_other_key c add "authorization" (by decide)]
    exact hl

/-- Witness for C10: the example client attaches its computed basic-auth
value even when a lower-case `authorization` header is supplied per call. -/
theorem claim_C10_witness :
    recLookup (buildHeaders exampleClient [("authorization", "x")]) "Authorization" =
        some "Basic dXNlcjpwYXNz" ∧
      recLookup (buildHeaders exampleClient [("authorization", "x")]) "authorization" =
        some "x" :=
  (claim_C10 exampleClient [("authorization", "x")] (by decide)).2.2.2.2.2
    "Basic dXNlcjpwYXNz" "x" (by decide) (by decide) (by decide) (by decide)

/-!  Claim C4: the Depth header.  -/

theorem recLookup_propfind_headers (c : Client) (dv : String) :
    recLookup (buildHeaders c
      [("Content-Type", "application/xml; charset=utf-8"), ("Depth", dv)]) "Depth" =
      some dv := by
  rw [buildHeaders_other_key c _ "Depth" (by decide)]
  have h : recLookup
      [("Content-Type", "application/xml; charset=utf-8"), ("Depth", dv)] "Depth" =
      some dv := by
    simp only [recLookup]
    rw [if_neg (by decide), if_pos (by decide)]
  rw [recLookup_spreadRec _ _ _ (by simp), h]

/-- Claim C4 (amended) — the Depth header is the `toString` rendering of
EVERY finite number (integers produce their decimal string, but a finite
non-integer such as 1.5 produces `"1.5"`, not `"infinity"`); only
non-finite numbers fall back to `"infinity"`; a string depth is
lower-cased, so `"infinity"` is sent literally; `stat` always sends Depth
`"0"`. -/
theorem claim_C4 (c : Client) (path : String) (d : DepthArg) :
    (∀ n : Int, depthValue (.num (intNumber n)) = toString n) ∧
      depthValue (.str "infinity") = "infinity" ∧
      (∀ nn : JSNumber, nn.isFinite = false → depthValue (.num nn) = "infinity") ∧
      (∀ s, depthValue (.num (.finite s)) = s) ∧
      (∀ req, getDirectoryContentsRequest c path d = some req →
        recLookup req.headers "Depth" = some (depthValue d)) ∧
      (∀ req, statRequest c path = some req →
        recLookup req.headers "Depth" = some "0") := by
  refine ⟨fun n => rfl, by decide, ?_, fun s => rfl, ?_, ?_⟩
  · intro nn h
    cases nn with
    | finite s => exact absurd h (by simp [JSNumber.isFinite])
    | nan => rfl
    | posInf => rfl
    | negInf => rfl
  · intro req hreq
    simp only [getDirectoryContentsRequest, mkRequest] at hreq
    cases hu : resolveRequestURL c path with
    | none => rw [hu] at hreq; exact absurd hreq (by simp)
    | some u =>
      rw [hu] at hreq
      simp only [Option.map, Option.some.injEq] at hreq
      rw [← hreq]
      exact recLookup_propfind_headers c (depthValue d)
  · intro req hreq
    simp only [statRequest, mkRequest] at hreq
    cases hu : resolveRequestURL c path with
    | none => rw [hu] at hreq; exact absurd hreq (by simp)
    | some u =>
      rw [hu] at hreq
      simp only [Option.map, Option.some.injEq] at hreq
      rw [← hreq]
      exact recLookup_propfind_headers c "0"

/-- Counterexample to C4 as stated: the finite non-integer depth 1.5 is
sent as `"1.5"`, where the claim prescribes `"infinity"` for every
non-integer depth value. -/
theorem claim_C4_counterexample :
    depthValue (.num (.finite "1.5")) = "1.5" ∧
      claimedDepthValue (.num (.finite "1.5")) = "infinity" ∧
      ("1.5" : String) ≠ "infinity" := by
  refine ⟨rfl, by decide, by decide⟩

/-- Witness for the amended C4 at a concrete request. -/
theorem claim_C4_witness :
    (∀ n : Int, depthValue (.num (intNumber n)) = toString n) ∧
      depthValue (.str "infinity") = "infinity" ∧
      (∀ nn : JSNumber, nn.isFinite = false → depthValue (.num nn) = "infinity") ∧
      (∀ s, depthValue (.num (.finite s)) = s) ∧
      (∀ req, getDirectoryContentsRequest exampleClient "folder"
          (.num (intNumber 1)) = some req →
        recLookup req.headers "Depth" = some (depthValue (.num (intNumber 1)))) ∧
      (∀ req, statRequest exampleClient "folder" = some req →
        recLookup req.headers "Depth" = some "0") :=
  claim_C4 exampleClient "folder" (.num (intNumber 1))

/-!  Claim C8: move/copy destination and overwrite headers.  -/

theorem strAppend_assoc (a b c : String) : a ++ b ++ c = a ++ (b ++ c) := by
  cases a with
  | mk la =>
    cases b with
    | mk lb =>
      cases c with
      | mk lc =>
        show String.mk ((la ++ lb) ++ lc) = String.mk (la ++ (lb ++ lc))
        rw [List.append_assoc]

theorem upToLastSlash_of_last_slash (l : List Char) (h : l.getLast? = some '/') :
    upToLastSlash l = l := by
  unfold upToLastSlash
  rw [← List.head?_reverse] at h
  cases hr : l.reverse with
  | nil => rw [hr] at h; exact absurd h (by simp)
  | cons a rest =>
    rw [hr] at h
    have ha : a = '/' := by simpa using h
    subst ha
    rw [List.dropWhile_cons]
    simp only [beq_self_eq_true, Bool.not_true, Bool.false_eq_true, if_false]
    rw [← hr, l.reverse_reverse]

theorem not_slash2_isPrefixOf (l : List Char) (h : l.head? ≠ some '/') :
    ¬ ['/', '/'].isPrefixOf l = true := by
  cases l with
  | nil => simp [List.isPrefixOf]
  | cons a rest =>
    intro hp
    simp only [List.isPrefixOf, Bool.and_eq_true, beq_iff_eq] at hp
    exact h (by rw [hp.1.symm]; rfl)

theorem dropLeadSlash_head (toPath : String)
    (hns : ¬ ['/', '/'].isPrefixOf toPath.data = true) :
    (dropLeadSlash toPath).data.head? ≠ some '/' := by
  unfold dropLeadSlash
  by_cases h : toPath.data.head? = some '/'
  · rw [if_pos h]
    cases hd : toPath.data with
    | nil => rw [hd] at h; exact absurd h (by simp)
    | cons a rest =>
      rw [hd] at h
      have ha : a = '/' := by simpa using h
      subst ha
      simp only [List.drop_succ_cons, List.drop_zero]
      intro hr
      apply hns
      rw [hd]
      cases hrest : rest with
      | nil => rw [hrest] at hr; exact absurd hr (by simp)
      | cons b rest2 =>
        rw [hrest] at hr
        have hb : b = '/' := by simpa using hr
        subst hb
        simp [List.isPrefixOf]
  · rw [if_neg h]
    exact h

theorem noQF_dropLeadSlash (toPath : String) (h : noQF toPath = true) :
    noQF (dropLeadSlash toPath) = true := by
  unfold dropLeadSlash
  by_cases hh : toPath.data.head? = some '/'
  · rw [if_pos hh]
    exact all_of_subset _ (fun a ha => List.drop_subset _ _ ha) h
  · rw [if_neg hh]
    exact h

/-- On the modelled domain, `resolveRequestURL` resolves every non-absolute
target against the base URL itself: the result is the base with the
(slash-stripped) target appended to its path. -/
theorem resolveRequestURL_dest (c : Client) (toPath : String)
    (hbase : c.base.pathname.data.getLast? = some '/')
    (hscheme : schemeLike toPath = false)
    (hns : ¬ ['/', '/'].isPrefixOf toPath.data = true)
    (hqf : noQF toPath = true) :
    resolveRequestURL c toPath =
      some { c.base with pathname := c.base.pathname ++ dropLeadSlash toPath } ∧
      urlToString { c.base with pathname := c.base.pathname ++ dropLeadSlash toPath } =
        urlToString c.base ++ dropLeadSlash toPath := by
  constructor
  · unfold resolveRequestURL
    rw [hscheme]
    simp only [Bool.false_eq_true, if_false]
    unfold jsResolve
    have hd := dropLeadSlash_head toPath hns
    rw [if_neg (not_slash2_isPrefixOf _ hd), if_neg hd]
    have h1 : stripQF (dropLeadSlash toPath).data = (dropLeadSlash toPath).data := by
      unfold stripQF
      exact takeWhile_eq_self_of_all _ _ (noQF_dropLeadSlash toPath hqf)
    rw [upToLastSlash_of_last_slash _ hbase, h1]
    rfl
  · unfold urlToString
    simp only
    simp [strAppend_assoc]

theorem recLookup_movecopy_headers (c : Client) (dest ow : String) :
    recLookup (buildHeaders c [("Destination", dest), ("Overwrite", ow)])
        "Destination" = some dest ∧
      recLookup (buildHeaders c [("Destination", dest), ("Overwrite", ow)])
        "Overwrite" = some ow := by
  constructor
  · rw [buildHeaders_other_key c _ "Destination" (by decide)]
    have h : recLookup [("Destination", dest), ("Overwrite", ow)] "Destination" =
        some dest := by
      simp only [recLookup]
      rw [if_pos (by decide)]
    rw [recLookup_spreadRec _ _ _ (by simp), h]
  · rw [buildHeaders_other_key c _ "Overwrite" (by decide)]
    have h : recLookup [("Destination", dest), ("Overwrite", ow)] "Overwrite" =
        some ow := by
      simp only [recLookup]
      rw [if_neg (by decide), if_pos (by decide)]
    rw [recLookup_spreadRec _ _ _ (by simp), h]

/-- Claim C8 — for every `moveFile`/`copyFile` call on the modelled domain,
the request carries a `Destination` header that is the fully qualified
target URL resolved against the configured base (the base URL string with
the slash-stripped target appended — never the origin alone, even for
root-relative input), and an `Overwrite` header that is exactly `"T"` when
the flag is true and `"F"` when it is false or omitted. -/
theorem claim_C8 (c : Client) (fromPath toPath : String) (ow : Bool)
    (hbase : c.base.pathname.data.getLast? = some '/')
    (hscheme : schemeLike toPath = false)
    (hns : ¬ ['/', '/'].isPrefixOf toPath.data = true)
    (hqf : noQF toPath = true)
    (hfrom : (resolveRequestURL c fromPath).isSome = true) :
    (∃ req, moveRequest c fromPath toPath ow = some req ∧
      recLookup req.headers "Destination" =
        some (urlToString c.base ++ dropLeadSlash toPath) ∧
      recLookup req.headers "Overwrite" = some (if ow then "T" else "F")) ∧
      (∃ req, copyRequest c fromPath toPath ow = some req ∧
        recLookup req.headers "Destination" =
          some (urlToString c.base ++ dropLeadSlash toPath) ∧
        recLookup req.headers "Overwrite" = some (if ow then "T" else "F")) := by
  obtain ⟨hres, htos⟩ := resolveRequestURL_dest c toPath hbase hscheme hns hqf
  obtain ⟨uf, huf⟩ := Option.isSome_iff_exists.mp hfrom
  constructor
  · refine ⟨{ method := "MOVE", url := urlToString uf
              headers := buildHeaders c
                [("Destination", urlToString { c.base with
                    pathname := c.base.pathname ++ dropLeadSlash toPath }),
                 ("Overwrite", if ow then "T" else "F")]
              body := none }, ?_, ?_, ?_⟩
    · unfold moveRequest
      rw [hres]
      simp only [Option.bind_some]
      unfold mkRequest
      rw [huf]
      rfl
    · rw [htos] at *
      exact (recLookup_movecopy_headers c _ _).1
    · exact (recLookup_movecopy_headers c _ _).2
  · refine ⟨{ method := "COPY", url := urlToString uf
              headers := buildHeaders c
                [("Destination", urlToString { c.base with
                    pathname := c.base.pathname ++ dropLeadSlash toPath }),
                 ("Overwrite", if ow then "T" else "F")]
              body := none }, ?_, ?_, ?_⟩
    · unfold copyRequest
      rw [hres]
      simp only [Option.bind_some]
      unfold mkRequest
      rw [huf]
      rfl
    · rw [htos] at *
      exact (recLookup_movecopy_headers c _ _).1
    · exact (recLookup_movecopy_headers c _ _).2

/-- Witness for C8 at the test-suite inputs: moving `old.txt` to
`archive/new.txt` with overwrite produces the fully qualified destination
and `Overwrite: T`. -/
theorem claim_C8_witness :
    (∃ req, moveRequest exampleClient "old.txt" "archive/new.txt" true = some req ∧
      recLookup req.headers "Destination" =
        some (urlToString exampleClient.base ++ dropLeadSlash "archive/new.txt") ∧
      recLookup req.headers "Overwrite" = some (if true then "T" else "F")) ∧
      (∃ req, copyRequest exampleClient "old.txt" "archive/new.txt" true = some req ∧
        recLookup req.headers "Destination" =
          some (urlToString exampleClient.base ++ dropLeadSlash "archive/new.txt") ∧
        recLookup req.headers "Overwrite" = some (if true then "T" else "F")) :=
  claim_C8 exampleClient "old.txt" "archive/new.txt" true (by decide) (by decide)
    (by decide) (by decide) (by decide)

/-!  Claim C5: error mapping of the operations.  -/

theorem stripLead_self_append (p l : List Char) : stripLead p (p ++ l) = some l := by
  induction p with
  | nil => rfl
  | cons a ps ih => simp [stripLead, ih]

theorem statFail404At_append (t : List Char) :
    statFail404At (statFailPat ++ (' ' :: '4' :: '0' :: '4' :: ' ' :: t)) = true := by
  unfold statFail404At
  rw [stripLead_self_append]
  show (stripLead "404".data
    ((' ' :: '4' :: '0' :: '4' :: ' ' :: t).dropWhile isWs)).isSome = true
  have h1 : isWs ' ' = true := by decide
  have h2 : ¬ isWs '4' = true := by decide
  rw [List.dropWhile_cons, if_pos h1, List.dropWhile_cons, if_neg h2]
  simp [stripLead]

theorem statFail404_head (l : List Char) (h : statFail404At l = true) (hne : l ≠ []) :
    statFail404 l = true := by
  cases l with
  | nil => exact absurd rfl hne
  | cons a rest =>
    unfold statFail404
    rw [h]
    rfl

theorem statFail404_of_msg (t : String) :
    statFail404 ("Failed to stat resource: " ++ "404" ++ " " ++ t).data = true := by
  have hd : ("Failed to stat resource: " ++ "404" ++ " " ++ t).data =
      statFailPat ++ (' ' :: '4' :: '0' :: '4' :: ' ' :: t.data) := rfl
  rw [hd]
  refine statFail404_head _ (statFail404At_append t.data) ?_
  simp [statFailPat]

theorem responseOk_404 (r : HttpResponse) (h : r.status = 404) :
    responseOk r = false := by
  unfold responseOk
  rw [h]
  decide

/-- Claim C5 (amended) — a non-success transport status makes every
operation except `exists`, `deleteFile` and `getQuota` fail with the
message naming the operation and carrying the numeric status and status
text; `getQuota` instead reports "no quota information" (`none`) on any
non-success status; `exists` converts a 404 into `false`; `deleteFile`
treats a 404 as a successful no-op while issuing exactly one request, and
fails on other non-success statuses. -/
theorem claim_C5 (c : Client) (path : String) (r : HttpResponse)
    (hr : responseOk r = false) :
    getDirectoryContentsFromResponse c path r =
        .error ("Failed to get directory contents: " ++ toString r.status ++ " " ++
          r.statusText) ∧
      statFromResponse c path r =
        .error ("Failed to stat resource: " ++ toString r.status ++ " " ++
          r.statusText) ∧
      getFileContentsFromResponse r =
        .error ("Failed to get file contents: " ++ toString r.status ++ " " ++
          r.statusText) ∧
      putFileContentsFromResponse r =
        .error ("Failed to write file: " ++ toString r.status ++ " " ++ r.statusText) ∧
      createDirectoryFromResponse r =
        .error ("Failed to create directory: " ++ toString r.status ++ " " ++
          r.statusText) ∧
      moveFileFromResponse r =
        .error ("Failed to move resource: " ++ toString r.status ++ " " ++
          r.statusText) ∧
      copyFileFromResponse r =
        .error ("Failed to copy resource: " ++ toString r.status ++ " " ++
          r.statusText) ∧
      searchFromResponse c r =
        .error ("Failed to search: " ++ toString r.status ++ " " ++ r.statusText) ∧
      getQuotaFromResponse c r = .ok none ∧
      (r.status = 404 → existsFromResponse c path r = .ok false) ∧
      (r.status = 404 → deleteFileFromResponse r = .ok () ∧
        ∀ reqs res, deleteFileOp c path r = some (reqs, res) →
          reqs.length = 1 ∧ res = .ok ()) ∧
      (¬ r.status = 404 →
        deleteFileFromResponse r =
          .error ("Failed to delete resource: " ++ toString r.status ++ " " ++
            r.statusText)) := by
  refine ⟨?_, ?_, ?_, ?_, ?_, ?_, ?_, ?_, ?_, ?_, ?_, ?_⟩
  · unfold getDirectoryContentsFromResponse
    simp only [hr, Bool.false_eq_true, if_false]
  · unfold statFromResponse
    simp only [hr, Bool.false_eq_true, if_false]
  · unfold getFileContentsFromResponse
    simp only [hr, Bool.false_eq_true, if_false]
  · unfold putFileContentsFromResponse
    simp only [hr, Bool.false_eq_true, if_false]
  · unfold createDirectoryFromResponse
    simp only [hr, Bool.false_eq_true, if_false]
  · unfold moveFileFromResponse
    simp only [hr, Bool.false_eq_true, if_false]
  · unfold copyFileFromResponse
    simp only [hr, Bool.false_eq_true, if_false]
  · unfold searchFromResponse
    simp only [hr, Bool.false_eq_true, if_false]
  · unfold getQuotaFromResponse
    simp only [hr, Bool.false_eq_true, if_false]
  · intro h404
    unfold existsFromResponse statFromResponse
    simp only [hr, Bool.false_eq_true, if_false, h404]
    have h4 : statFail404
        ("Failed to stat resource: " ++ toString (404 : Nat) ++ " " ++
          r.statusText).data = true := statFail404_of_msg r.statusText
    rw [h4, Bool.or_true]
    rfl
  · intro h404
    constructor
    · unfold deleteFileFromResponse
      rw [if_pos h404]
    · intro reqs res hop
      unfold deleteFileOp at hop
      cases hm : mkRequest c "DELETE" path none [] with
      | none => rw [hm] at hop; exact absurd hop (by simp)
      | some req =>
        rw [hm] at hop
        simp only [Option.map, Option.some.injEq] at hop
        have h1 : reqs = [req] := (congrArg Prod.fst hop).symm
        have h2 : res = deleteFileFromResponse r := (congrArg Prod.snd hop).symm
        refine ⟨by rw [h1]; rfl, ?_⟩
        rw [h2]
        unfold deleteFileFromResponse
        rw [if_pos h404]
  · intro h404
    unfold deleteFileFromResponse
    rw [if_neg h404]
    simp only [hr, Bool.false_eq_true, if_false]

/-- Counterexample to C5 as stated: a 500 response makes `getQuota` return
"no quota information" rather than a descriptive failure. -/
theorem claim_C5_counterexample :
    getQuotaFromResponse rootClient ⟨500, "Server Error", ""⟩ = .ok none := by decide

/-- Witness for the amended C5 at a concrete non-success response. -/
theorem claim_C5_witness :
    statFromResponse rootClient "p" ⟨500, "Server Error", ""⟩ =
      .error ("Failed to stat resource: " ++ toString (500 : Nat) ++ " " ++
        "Server Error") :=
  (claim_C5 rootClient "p" ⟨500, "Server Error", ""⟩ (by decide)).2.1

end WebDAV

